import Mathlib

/-
Verification development for the optimesh driver (src/optimesh/main.py).

The file shallowly embeds the two components the claims are about:

* the method resolver of `optimize` (name normalization, the method
  registry, the special scipy-ODT routing and the omega assertion), and
* the relaxation driver `_optimize` (boundary handling, the step-size
  safety clamp, the implicit-surface correction loop, and the main
  iteration loop with its convergence test and return value).

Vertex coordinates are exact reals; machine floats of the source are
idealized as ℝ.  External collaborators (meshplex, the point-update
strategies, the implicit-surface object) are modelled as parameters:
the driver only calls them through the narrow interfaces visible in
`main.py`, which is what the `Ext`, `Params` and `Surface` records
capture.
-/

namespace Optimesh

/-! Euclidean vector helpers.

`dot` is `numpy.einsum("ij,ij->i", a, b)` for a single row, `enorm` the
Euclidean length `numpy.sqrt(numpy.einsum("ij,ij->i", d, d))` of a single
row. -/

def dot {d : ℕ} (a b : Fin d → ℝ) : ℝ := ∑ i, a i * b i

noncomputable def enorm {d : ℕ} (a : Fin d → ℝ) : ℝ := Real.sqrt (dot a a)

/-! Method resolver (main.py, lines 9-45).

Python strings are modelled as `List Char`; `String.data` converts a Lean
string literal.  `normalizeName` is the embedding of

  "-".join(filter(lambda item: item != "", re.split("-| |\\(|\\)", method.lower())))

`re.split` on single-character alternatives cuts the string at every
occurrence of `-`, space, `(` or `)`, producing (possibly empty) tokens. -/

def isDelim (c : Char) : Bool := c == '-' || c == ' ' || c == '(' || c == ')'

def splitDelims : List Char → List (List Char)
  | [] => [[]]
  | c :: cs =>
    match splitDelims cs with
    | [] => [[c]]
    | t :: ts => if isDelim c then [] :: t :: ts else (c :: t) :: ts

def normalizeName (s : String) : List Char :=
  List.intercalate ['-'] ((splitDelims (s.data.map Char.toLower)).filter (fun t => !t.isEmpty))

/-- The point-update strategies registered in the `methods` dict
(main.py lines 9-22).  Their internals are external collaborators; only
their identity matters for dispatch. -/
inductive Strategy
  | lloyd
  | cvtBlockDiagonal
  | cvtFull
  | cptLinearSolve
  | cptFixedPoint
  | cptQuasiNewton
  | laplace
  | odtFixedPoint
deriving DecidableEq

/-- The `methods` registry, key for key.  Note the misspelled key
`"cvt-diaognal"` of line 11, mapped to the same strategy as `"lloyd"`. -/
def methods : List (List Char × Strategy) :=
  [("lloyd".data, .lloyd),
   ("cvt-diaognal".data, .lloyd),
   ("cvt-block-diagonal".data, .cvtBlockDiagonal),
   ("cvt-full".data, .cvtFull),
   ("cpt-linear-solve".data, .cptLinearSolve),
   ("cpt-fixed-point".data, .cptFixedPoint),
   ("cpt-quasi-newton".data, .cptQuasiNewton),
   ("laplace".data, .laplace),
   ("odt-fixed-point".data, .odtFixedPoint)]

/-- Lookup `methods[nm]`: `none` models the `KeyError` raised on a missing key. -/
def lookupMethod (nm : List Char) : Option Strategy :=
  (methods.find? (fun p => p.1 == nm)).map (·.2)

/-- Which code path `optimize` takes for a given (already normalized)
method name: the scipy special case of lines 37-43, the `_optimize`
dispatch of line 45, or a `KeyError`. -/
inductive DispatchResult
  | special (minMethod : List Char)
  | driver (m : Strategy)
  | unknown
deriving DecidableEq

/-- Lines 37-45 of main.py as a function of the normalized name:

  if normalized_method[:3] == "odt" and normalized_method[4:] != "fixed-point":
      ... odt.nonlinear_optimization(mesh, normalized_method[4:], ...)
  return _optimize(methods[normalized_method].get_new_points, ...)

Python slices `[:3]` and `[4:]` are `List.take 3` and `List.drop 4`. -/
def dispatchNorm (nm : List Char) : DispatchResult :=
  if nm.take 3 = "odt".data ∧ nm.drop 4 ≠ "fixed-point".data then
    .special (nm.drop 4)
  else
    match lookupMethod nm with
    | some m => .driver m
    | none => .unknown

def dispatch (name : String) : DispatchResult := dispatchNorm (normalizeName name)

/-- Everything `optimize` can do with a call, as far as control flow is
concerned: run the relaxation driver with a given strategy and relaxation
factor, call `odt.nonlinear_optimization` with a method selector and the
forwarded `omega` option (always stripped, hence `none`, when present and
equal to 1.0), raise `KeyError` on an unknown name, or fail the
`assert kwargs["omega"] == 1.0` of line 40. -/
inductive Outcome
  | runDriver (m : Strategy) (omega : ℝ)
  | runNonlinear (minMethod : List Char) (forwardedOmega : Option ℝ)
  | errorUnknownMethod
  | errorInvalidOmega

/-- The call `optimize(mesh, method, ..., omega=...)`, lines 29-45, restricted to
its dispatch behaviour.  `omega?` is the `omega` keyword argument when
supplied.  On the special path the code asserts `omega == 1.0` and pops it
before delegating; on the driver path `omega` is forwarded to `_optimize`
whose default is 1.0. -/
noncomputable def optimizeOutcome (name : String) (omega? : Option ℝ) : Outcome :=
  match dispatch name with
  | .special rem =>
    match omega? with
    | some w => if w = 1.0 then .runNonlinear rem none else .errorInvalidOmega
    | none => .runNonlinear rem none
  | .driver m => .runDriver m (omega?.getD 1.0)
  | .unknown => .errorUnknownMethod

/-! Relaxation driver, the function of main.py lines 54-175.

The mesh has `n` vertices with coordinates in `ℝ^d` and a list of
triangular cells (vertex-index triples).  `meshplex.MeshTri` is an
external collaborator: boundary classification, per-cell inradius and
`flip_until_delaunay` (which rearranges cells but moves no vertex) are
oracle functions collected in `Ext`. -/

structure MeshState (n d : ℕ) where
  points : Fin n → Fin d → ℝ
  cells : List (Fin n × Fin n × Fin n)

/-- The `implicit_surface` option: an object exposing a scalar field `f`
and its gradient `grad`, both evaluated pointwise on coordinates. -/
structure Surface (d : ℕ) where
  f : (Fin d → ℝ) → ℝ
  grad : (Fin d → ℝ) → (Fin d → ℝ)

/-- External collaborators of `_optimize`: the point-update strategy
(`get_new_points`), `mesh.is_boundary_point`, `mesh.cell_inradius` (a
function of the current coordinates and a cell's vertex triple), and
`mesh.flip_until_delaunay` (returns the repaired connectivity; vertices
are not moved by it). -/
structure Ext (n d : ℕ) where
  getNewPoints : MeshState n d → Fin n → Fin d → ℝ
  isBoundaryPoint : List (Fin n × Fin n × Fin n) → Fin n → Bool
  inradius : (Fin n → Fin d → ℝ) → (Fin n × Fin n × Fin n) → ℝ
  flipUntilDelaunay : MeshState n d → List (Fin n × Fin n × Fin n)

/-- The keyword arguments of `_optimize` that affect vertex positions
and termination (verbose/callback/step_filename_format only produce side
output and are omitted). -/
structure Params (n d : ℕ) where
  tol : ℝ
  maxNumSteps : ℕ
  omega : ℝ
  boundaryStep : Option ((Fin d → ℝ) → (Fin d → ℝ))
  implicitSurface : Option (Surface d)
  implicitSurfaceTol : ℝ

def cellVerts {n : ℕ} (c : Fin n × Fin n × Fin n) : List (Fin n) := [c.1, c.2.1, c.2.2]

/-- The cells incident to vertex `v`; `numpy.minimum.at` on
`mesh.cells["points"].reshape(-1)` visits exactly the (cell, vertex-slot)
pairs, i.e. each cell containing `v` contributes its inradius to `v`. -/
def incidentCells {n : ℕ} (cells : List (Fin n × Fin n × Fin n)) (v : Fin n) :
    List (Fin n × Fin n × Fin n) :=
  cells.filter (fun c => decide (v ∈ cellVerts c))

/-- Minimum of a list of reals, `none` for the empty list: the
`numpy.full(..., numpy.inf)` seed of line 112 followed by
`numpy.minimum.at`; `none` plays the role of `inf`. -/
noncomputable def minList : List ℝ → Option ℝ
  | [] => none
  | r :: rs =>
    match minList rs with
    | none => some r
    | some m => some (min r m)

/-- The `max_step` array of lines 112-118: half the minimum inradius over the
cells incident to `v`, measured on the current points; `none` (= `inf`)
for a vertex incident to no cell. -/
noncomputable def maxStep {n d : ℕ} (E : Ext n d) (s : MeshState n d) (v : Fin n) :
    Option ℝ :=
  (minList ((incidentCells s.cells v).map (E.inradius s.points))).map (fun r => 0.5 * r)

/-- Lines 120-125 for a single vertex: if the step length exceeds the
cap, rescale the step to the cap (`diff[idx] *= max_step[idx]/step_lengths[idx]`);
an infinite cap (`none`) never triggers (`x > inf` is false). -/
noncomputable def clampVec {d : ℕ} (ms : Option ℝ) (w : Fin d → ℝ) : Fin d → ℝ :=
  match ms with
  | none => w
  | some m => if m < enorm w then fun i => w i * (m / enorm w) else w

/-- Lines 91-101: the strategy's proposal, with boundary vertices
overwritten — reset to their current position when no `boundary_step`
function is configured, otherwise replaced by `boundary_step` applied to
the proposed coordinates. -/
noncomputable def proposal {n d : ℕ} (E : Ext n d) (P : Params n d) (s : MeshState n d) :
    Fin n → Fin d → ℝ :=
  fun v =>
    if E.isBoundaryPoint s.cells v then
      match P.boundaryStep with
      | none => s.points v
      | some g => g (E.getNewPoints s v)
    else E.getNewPoints s v

/-- Line 103: `diff = omega * (new_points - mesh.points)`. -/
noncomputable def rawDiff {n d : ℕ} (E : Ext n d) (P : Params n d) (s : MeshState n d)
    (v : Fin n) : Fin d → ℝ :=
  fun i => P.omega * (proposal E P s v i - s.points v i)

/-- The step actually committed for `v`: `diff` after the clamp of
lines 124-125. -/
noncomputable def clampedDiff {n d : ℕ} (E : Ext n d) (P : Params n d) (s : MeshState n d)
    (v : Fin n) : Fin d → ℝ :=
  clampVec (maxStep E s v) (rawDiff E P s v)

/-- Line 127: `new_points = mesh.points + diff`. -/
noncomputable def committedPoints {n d : ℕ} (E : Ext n d) (P : Params n d)
    (s : MeshState n d) : Fin n → Fin d → ℝ :=
  fun v i => s.points v i + clampedDiff E P s v i

/-- One pass of the implicit-surface correction of line 138:
`new_points -= (grad * (fval / grad_dot_grad)).T`, applied to every
point (the update carries no mask). -/
noncomputable def surfPass {n d : ℕ} (S : Surface d) (x : Fin n → Fin d → ℝ) :
    Fin n → Fin d → ℝ :=
  fun v i => x v i - S.grad (x v) i * (S.f (x v) / dot (S.grad (x v)) (S.grad (x v)))

/-- All field values within tolerance: the negation of the loop guard
`numpy.any(numpy.abs(fval) > implicit_surface_tol)` of line 132. -/
def WithinTol {n d : ℕ} (S : Surface d) (tol : ℝ) (x : Fin n → Fin d → ℝ) : Prop :=
  ∀ v, |S.f (x v)| ≤ tol

/-- The loop guard of line 132: some point's field value exceeds the
tolerance in absolute value. -/
def HasViolation {n d : ℕ} (S : Surface d) (tol : ℝ) (x : Fin n → Fin d → ℝ) : Prop :=
  ∃ v, tol < |S.f (x v)|

/-- Big-step semantics of the `while numpy.any(numpy.abs(fval) > tol)`
loop of lines 131-140: `SurfLoop S tol x y` holds when the loop started
at `x` terminates with points `y`.  The inductive presentation leaves
room for the loop to diverge (then no `y` is related to `x`). -/
inductive SurfLoop {n d : ℕ} (S : Surface d) (tol : ℝ) :
    (Fin n → Fin d → ℝ) → (Fin n → Fin d → ℝ) → Prop
  | done (x) : WithinTol S tol x → SurfLoop S tol x x
  | step (x y) : HasViolation S tol x → SurfLoop S tol (surfPass S x) y → SurfLoop S tol x y

/-- The points assigned by `mesh.points = new_points` at line 142:
the committed points when no implicit surface is configured, otherwise
the result of the correction loop started from the committed points. -/
def NewPointsRel {n d : ℕ} (E : Ext n d) (P : Params n d) (s : MeshState n d)
    (y : Fin n → Fin d → ℝ) : Prop :=
  match P.implicitSurface with
  | none => y = committedPoints E P s
  | some S => SurfLoop S P.implicitSurfaceTol (committedPoints E P s) y

/-- Line 148: `diff_norm_2 = numpy.einsum("ij,ij->i", diff, diff)`. -/
noncomputable def diffNorm2 {n d : ℕ} (E : Ext n d) (P : Params n d) (s : MeshState n d) :
    Fin n → ℝ :=
  fun v => dot (clampedDiff E P s v) (clampedDiff E P s v)

/-- The mesh after `mesh.points = new_points; mesh.flip_until_delaunay()`
(lines 142-143): the flip repairs connectivity but moves no vertex. -/
def nextState {n d : ℕ} (E : Ext n d) (s : MeshState n d) (y : Fin n → Fin d → ℝ) :
    MeshState n d :=
  ⟨y, E.flipUntilDelaunay ⟨y, s.cells⟩⟩

/-- The tolerance half of line 149: `numpy.all(diff_norm_2 < tol ** 2)`. -/
def tolCond {n d : ℕ} (P : Params n d) (dn2 : Fin n → ℝ) : Prop :=
  ∀ v, dn2 v < P.tol ^ 2

/-- Line 149: `is_final = numpy.all(diff_norm_2 < tol ** 2) or k >= max_num_steps`. -/
def isFinal {n d : ℕ} (P : Params n d) (dn2 : Fin n → ℝ) (k : ℕ) : Prop :=
  tolCond P dn2 ∨ P.maxNumSteps ≤ k

/-- What a finished run of the `while True` loop yields: the final value
of `k`, the final mesh, and the `diff` of the last committed step (from
which line 175 computes the residual). -/
abbrev DriverOut (n d : ℕ) := ℕ × MeshState n d × (Fin n → Fin d → ℝ)

/-- Big-step semantics of the `while True` loop of lines 88-173, entered
with counter `k` and mesh `s`.  Each constructor performs one loop body:
`k += 1`, propose / overwrite boundary / clamp / commit, run the
implicit-surface correction (`NewPointsRel`), reassign the points, flip,
and test `is_final`; `final` breaks out of the loop, `cont` continues. -/
inductive Loop {n d : ℕ} (E : Ext n d) (P : Params n d) :
    ℕ → MeshState n d → DriverOut n d → Prop
  | final (k s y) :
      NewPointsRel E P s y →
      isFinal P (diffNorm2 E P s) (k + 1) →
      Loop E P k s (k + 1, nextState E s y, clampedDiff E P s)
  | cont (k s y out) :
      NewPointsRel E P s y →
      ¬ isFinal P (diffNorm2 E P s) (k + 1) →
      Loop E P (k + 1) (nextState E s y) out →
      Loop E P k s out

/-- A complete call of `_optimize`: `k = 0`, the pre-loop
`mesh.flip_until_delaunay()` of line 85 (which moves no vertex), then
the loop. -/
def DriverRun {n d : ℕ} (E : Ext n d) (P : Params n d) (s₀ : MeshState n d)
    (out : DriverOut n d) : Prop :=
  Loop E P 0 ⟨s₀.points, E.flipUntilDelaunay s₀⟩ out

/-- Line 175 for a mesh with at least one vertex:
`numpy.max(numpy.sqrt(diff_norm_2))`. -/
noncomputable def maxDisplacement {n d : ℕ} (diff : Fin (n + 1) → Fin d → ℝ) : ℝ :=
  Finset.univ.sup' ⟨0, Finset.mem_univ 0⟩ (fun v => Real.sqrt (dot (diff v) (diff v)))

/-- Line 175: `return k, numpy.max(numpy.sqrt(diff_norm_2))`. -/
noncomputable def driverReturn {n d : ℕ} (out : DriverOut (n + 1) d) : ℕ × ℝ :=
  (out.1, maxDisplacement out.2.2)

inductive OptError
  | unknownMethod
  | invalidOmega
deriving DecidableEq

/-- The value a call to `optimize` produces, given the driver output
`out` for the runs that reach `_optimize`: the driver path returns the
`(k, residual)` pair of line 175; the scipy-ODT special path executes a
bare `return` (line 43), i.e. yields `None`; unknown names raise
`KeyError`, and a non-1.0 `omega` on the special path fails the
assertion of line 40. -/
noncomputable def optimizeReturn {n d : ℕ} (name : String) (omega? : Option ℝ)
    (out : DriverOut (n + 1) d) : Except OptError (Option (ℕ × ℝ)) :=
  match optimizeOutcome name omega? with
  | .runDriver _ _ => .ok (some (driverReturn out))
  | .runNonlinear _ _ => .ok none
  | .errorUnknownMethod => .error .unknownMethod
  | .errorInvalidOmega => .error .invalidOmega

/-! Concrete configurations.

Small meshes and option records used to exercise the theorems below on
explicit inputs. -/

/-- One triangle on three vertices in the plane; the strategy proposes
`(3, 4)` for every vertex, every cell has inradius 2, nobody is a
boundary point, flipping keeps the connectivity. -/
noncomputable def C1E : Ext 3 2 :=
  ⟨fun _ _ i => if i.val = 0 then 3 else 4, fun _ _ => false, fun _ _ => 2, fun s => s.cells⟩

noncomputable def C1P : Params 3 2 := ⟨1, 10, 1, none, none, 1⟩

def C1cells : List (Fin 3 × Fin 3 × Fin 3) := [(0, 1, 2)]

noncomputable def C1s : MeshState 3 2 := ⟨fun _ _ => 0, C1cells⟩

def C1v : Fin 3 := 0

/-- A single free vertex, no cells, identity strategy: the driver
commits a zero step on its first (and only) iteration. -/
noncomputable def C2E : Ext 1 1 :=
  ⟨fun s => s.points, fun _ _ => false, fun _ _ => 0, fun s => s.cells⟩

/-- Options `tol = 5`, `max_num_steps = 0`. -/
noncomputable def C2P : Params 1 1 := ⟨5, 0, 1, none, none, 1⟩

noncomputable def C2s : MeshState 1 1 := ⟨fun _ _ => 0, []⟩

noncomputable def C2out : DriverOut 1 1 :=
  (1, nextState C2E C2s (committedPoints C2E C2P C2s), clampedDiff C2E C2P C2s)

/-- Implicit surface `f(p) = p - 1` with gradient 1 on the line. -/
noncomputable def C3S : Surface 1 := ⟨fun p => p 0 - 1, fun _ _ => 1⟩

/-- A single vertex classified as a boundary point, no cells, identity
strategy. -/
noncomputable def C3E : Ext 1 1 :=
  ⟨fun s => s.points, fun _ _ => true, fun _ _ => 0, fun s => s.cells⟩

/-- No `boundary_step`, but `implicit_surface = C3S` with tolerance 0.1;
one driver iteration. -/
noncomputable def C3P : Params 1 1 := ⟨1, 1, 1, none, some C3S, 0.1⟩

noncomputable def C3s : MeshState 1 1 := ⟨fun _ _ => 0, []⟩

noncomputable def C3y : Fin 1 → Fin 1 → ℝ := surfPass C3S (committedPoints C3E C3P C3s)

noncomputable def C3out : DriverOut 1 1 :=
  (1, nextState C3E C3s C3y, clampedDiff C3E C3P C3s)

def C3v : Fin 1 := 0

/-- A boundary vertex whose strategy proposes to move it to 7; no
implicit surface. -/
noncomputable def C3WE : Ext 1 1 :=
  ⟨fun _ _ _ => 7, fun _ _ => true, fun _ _ => 0, fun s => s.cells⟩

noncomputable def C3WP : Params 1 1 := ⟨1, 1, 1, none, none, 1⟩

noncomputable def C3Ws : MeshState 1 1 := ⟨fun _ _ => 0, []⟩

/-- Single free vertex, identity strategy (zero step). -/
noncomputable def C4E : Ext 1 1 :=
  ⟨fun s => s.points, fun _ _ => false, fun _ _ => 0, fun s => s.cells⟩

/-- Options `tol = 1`, `max_num_steps = 5`: the first iteration is final because
of the tolerance condition. -/
noncomputable def C4P : Params 1 1 := ⟨1, 5, 1, none, none, 1⟩

/-- Same run with the pathological `tol = -1`. -/
noncomputable def C4Pneg : Params 1 1 := ⟨-1, 5, 1, none, none, 1⟩

noncomputable def C4s : MeshState 1 1 := ⟨fun _ _ => 0, []⟩

noncomputable def C4out : DriverOut 1 1 :=
  (1, nextState C4E C4s (committedPoints C4E C4P C4s), clampedDiff C4E C4P C4s)

noncomputable def C4outNeg : DriverOut 1 1 :=
  (1, nextState C4E C4s (committedPoints C4E C4Pneg C4s), clampedDiff C4E C4Pneg C4s)

def C4v : Fin 1 := 0

/-- Implicit surface `f(p) = p` with gradient 1: points are corrected
towards 0. -/
noncomputable def C6S : Surface 1 := ⟨fun p => p 0, fun _ _ => 1⟩

/-- Two free vertices at 1/2 and 2, identity strategy, no cells. -/
noncomputable def C6E : Ext 2 1 :=
  ⟨fun s => s.points, fun _ _ => false, fun _ _ => 0, fun s => s.cells⟩

/-- Options with `implicit_surface = C6S` and tolerance 1: vertex 0 (at 1/2) is
within tolerance, vertex 1 (at 2) is not. -/
noncomputable def C6P : Params 2 1 := ⟨1, 1, 1, none, some C6S, 1⟩

noncomputable def C6s : MeshState 2 1 := ⟨fun v _ => if v.val = 0 then 1 / 2 else 2, []⟩

noncomputable def C6y : Fin 2 → Fin 1 → ℝ := surfPass C6S (committedPoints C6E C6P C6s)

noncomputable def C6out : DriverOut 2 1 :=
  (1, nextState C6E C6s C6y, clampedDiff C6E C6P C6s)

def C6vA : Fin 2 := 0

def C6vB : Fin 2 := 1

/-! Helper lemmas. -/

theorem dot_self_nonneg {d : ℕ} (a : Fin d → ℝ) : 0 ≤ dot a a :=
  Finset.sum_nonneg fun _ _ => mul_self_nonneg _

theorem enorm_nonneg {d : ℕ} (a : Fin d → ℝ) : 0 ≤ enorm a := Real.sqrt_nonneg _

theorem dot_mul_right {d : ℕ} (w : Fin d → ℝ) (c : ℝ) :
    dot (fun i => w i * c) (fun i => w i * c) = dot w w * c ^ 2 := by
  unfold dot
  rw [Finset.sum_mul]
  exact Finset.sum_congr rfl fun i _ => by ring

theorem enorm_mul_right {d : ℕ} (w : Fin d → ℝ) (c : ℝ) :
    enorm (fun i => w i * c) = enorm w * |c| := by
  unfold enorm
  rw [dot_mul_right, Real.sqrt_mul (dot_self_nonneg w), Real.sqrt_sq_eq_abs]

theorem minList_nonneg :
    ∀ l : List ℝ, (∀ r ∈ l, 0 ≤ r) → ∀ m, minList l = some m → 0 ≤ m := by
  intro l
  induction l with
  | nil => intro _ m hm; simp [minList] at hm
  | cons r rs ih =>
    intro h m hm
    unfold minList at hm
    cases hrs : minList rs with
    | none =>
      rw [hrs] at hm
      simp only [Option.some.injEq] at hm
      exact hm ▸ h r (List.mem_cons_self r rs)
    | some m' =>
      rw [hrs] at hm
      simp only [Option.some.injEq] at hm
      subst hm
      exact le_min (h r (List.mem_cons_self r rs))
        (ih (fun x hx => h x (List.mem_cons_of_mem r hx)) m' hrs)

/-! Claims. -/

/-- C1: in every iteration, for every vertex, the committed step (the
clamped `diff` that line 127 adds to the current position) has Euclidean
length at most the `max_step` cap, which is half the minimum inradius
over the cells incident to that vertex measured on the mesh before the
step; a vertex whose raw step exceeds the cap has its step rescaled to
exactly the cap with direction preserved (a nonnegative scalar
multiple); a vertex incident to no cell has no cap and keeps its raw
step.  The inradii are nonnegative, as incircle radii of actual
triangles are. -/
theorem clamp_safety {n d : ℕ} (E : Ext n d) (P : Params n d) (s : MeshState n d) (v : Fin n)
    (h : ∀ c ∈ incidentCells s.cells v, 0 ≤ E.inradius s.points c) :
    (incidentCells s.cells v = [] →
      maxStep E s v = none ∧ clampedDiff E P s v = rawDiff E P s v)
    ∧ ∀ m, maxStep E s v = some m →
        enorm (clampedDiff E P s v) ≤ m
        ∧ (enorm (rawDiff E P s v) ≤ m → clampedDiff E P s v = rawDiff E P s v)
        ∧ (m < enorm (rawDiff E P s v) →
            enorm (clampedDiff E P s v) = m
            ∧ clampedDiff E P s v =
                fun i => rawDiff E P s v i * (m / enorm (rawDiff E P s v))) := by
  constructor
  · intro he
    have hms : maxStep E s v = none := by simp [maxStep, he, minList]
    exact ⟨hms, by simp [clampedDiff, hms, clampVec]⟩
  · intro m hm
    obtain ⟨r, hr, hmr⟩ :
        ∃ r, minList ((incidentCells s.cells v).map (E.inradius s.points)) = some r
          ∧ 0.5 * r = m := by
      simpa [maxStep, Option.map_eq_some'] using hm
    have hr0 : 0 ≤ r := by
      refine minList_nonneg _ ?_ r hr
      intro x hx
      obtain ⟨c, hc, rfl⟩ := List.mem_map.mp hx
      exact h c hc
    have hm0 : 0 ≤ m := by rw [← hmr]; linarith
    have hcd : clampedDiff E P s v = clampVec (some m) (rawDiff E P s v) := by
      rw [clampedDiff, hm]
    by_cases hlt : m < enorm (rawDiff E P s v)
    · have hw0 : 0 < enorm (rawDiff E P s v) := lt_of_le_of_lt hm0 hlt
      have hc : clampedDiff E P s v =
          fun i => rawDiff E P s v i * (m / enorm (rawDiff E P s v)) := by
        rw [hcd]; simp [clampVec, if_pos hlt]
      have hnorm : enorm (clampedDiff E P s v) = m := by
        rw [hc, enorm_mul_right, abs_of_nonneg (div_nonneg hm0 hw0.le), mul_comm,
          div_mul_cancel₀ _ hw0.ne']
      exact ⟨hnorm.le, fun hle => absurd hlt (not_lt.mpr hle), fun _ => ⟨hnorm, hc⟩⟩
    · have hc : clampedDiff E P s v = rawDiff E P s v := by
        rw [hcd]; simp [clampVec, if_neg hlt]
      exact ⟨by rw [hc]; exact not_lt.mp hlt, fun _ => hc, fun hgt => absurd hgt hlt⟩

/-- Witness for C1: on the concrete triangle `C1s` with inradius 2 the
cap is 1; the raw step `(3, 4)` of length 5 is clamped to length
exactly 1. -/
theorem clamp_safety_witness :
    maxStep C1E C1s C1v = some 1
    ∧ enorm (clampedDiff C1E C1P C1s C1v) ≤ 1
    ∧ enorm (clampedDiff C1E C1P C1s C1v) = 1 := by
  have h : ∀ c ∈ incidentCells C1s.cells C1v, 0 ≤ C1E.inradius C1s.points c := by
    intro c _
    show (0 : ℝ) ≤ 2
    norm_num
  have hinc : incidentCells C1s.cells C1v = [((0 : Fin 3), (1 : Fin 3), (2 : Fin 3))] := by
    decide
  have hms : maxStep C1E C1s C1v = some 1 := by
    simp only [maxStep, hinc, List.map_cons, List.map_nil, minList, Option.map_some']
    norm_num [C1E]
  have hraw : enorm (rawDiff C1E C1P C1s C1v) = 5 := by
    have hdot : dot (rawDiff C1E C1P C1s C1v) (rawDiff C1E C1P C1s C1v) = 25 := by
      simp [dot, rawDiff, proposal, C1E, C1P, C1s, Fin.sum_univ_two]
      norm_num
    rw [enorm, hdot, show (25 : ℝ) = 5 ^ 2 by norm_num,
      Real.sqrt_sq (by norm_num : (0 : ℝ) ≤ 5)]
  obtain ⟨-, h2⟩ := clamp_safety C1E C1P C1s C1v h
  obtain ⟨hle, -, hstrict⟩ := h2 1 hms
  exact ⟨hms, hle, (hstrict (by rw [hraw]; norm_num)).1⟩

theorem loop_iter_le {n d : ℕ} {E : Ext n d} {P : Params n d} :
    ∀ {k : ℕ} {s : MeshState n d} {out : DriverOut n d},
      Loop E P k s out → out.1 ≤ max (k + 1) P.maxNumSteps := by
  intro k s out h
  induction h with
  | final k s y hy hf => exact le_max_left _ _
  | cont k s y out hy hnf hl ih =>
    have hk : k + 1 < P.maxNumSteps := by
      by_contra hc
      exact hnf (Or.inr (by omega))
    calc out.1 ≤ max (k + 1 + 1) P.maxNumSteps := ih
    _ = P.maxNumSteps := max_eq_right (by omega)
    _ ≤ max (k + 1) P.maxNumSteps := le_max_right _ _

/-- C2 (amended): the `while True` loop of lines 88-173 always halts,
after at most `max 1 max_num_steps` iterations of the loop body — the
loop is do-while shaped, so even `max_num_steps = 0` executes the body
once before the `k >= max_num_steps` check can fire.  (The claim's bound
`max_num_steps` itself fails at `max_num_steps = 0`, see the
counterexample.) -/
theorem driver_halts {n d : ℕ} (E : Ext n d) (P : Params n d) (s₀ : MeshState n d)
    (out : DriverOut n d) (h : DriverRun E P s₀ out) : out.1 ≤ max 1 P.maxNumSteps :=
  loop_iter_le h

/-- On the one-vertex mesh `C2s` with `max_num_steps = 0`, the driver
performs exactly one iteration and stops at `k = 1` via the step cap. -/
theorem C2run : DriverRun C2E C2P C2s C2out := by
  refine Loop.final 0 _ (committedPoints C2E C2P C2s) rfl (Or.inr (by decide))

/-- Witness for C2 (amended bound), on the concrete run `C2run`. -/
theorem driver_halts_witness :
    DriverRun C2E C2P C2s C2out ∧ C2out.1 ≤ max 1 C2P.maxNumSteps :=
  ⟨C2run, driver_halts C2E C2P C2s C2out C2run⟩

/-- Counterexample to C2 as stated: with `max_num_steps = 0` the run
still executes one iteration, so the iteration count exceeds
`max_num_steps`. -/
theorem max_steps_zero_cex :
    DriverRun C2E C2P C2s C2out ∧ C2P.maxNumSteps < C2out.1 :=
  ⟨C2run, by decide⟩

/-- C3 (amended): when no `boundary_step` function AND no implicit
surface are configured, every vertex classified as a boundary point has
exactly the same position after an iteration as before it: lines 96-98
reset its proposal to the current position, the zero step survives the
clamp, and `flip_until_delaunay` moves no vertex.  (With an implicit
surface the correction loop of lines 130-140 can move boundary points,
see the counterexample.) -/
theorem boundary_freeze {n d : ℕ} (E : Ext n d) (P : Params n d) (s : MeshState n d)
    (y : Fin n → Fin d → ℝ) (hb : P.boundaryStep = none) (hs : P.implicitSurface = none)
    (h : NewPointsRel E P s y) (v : Fin n) (hv : E.isBoundaryPoint s.cells v = true) :
    (nextState E s y).points v = s.points v := by
  have hy : y = committedPoints E P s := by
    simpa [NewPointsRel, hs] using h
  have hraw : rawDiff E P s v = fun _ => 0 := by
    funext i
    simp [rawDiff, proposal, hv, hb]
  have hclamp : clampedDiff E P s v = fun _ => 0 := by
    rw [clampedDiff, hraw]
    cases hms : maxStep E s v with
    | none => simp [clampVec]
    | some m =>
      simp only [clampVec]
      split
      · funext i; simp
      · rfl
  show y v = s.points v
  rw [hy]
  funext i
  simp [committedPoints, hclamp]

/-- Witness for C3 (amended): the boundary vertex of `C3Ws` stays at 0
even though the strategy proposes 7. -/
theorem boundary_freeze_witness :
    C3WP.boundaryStep = none ∧ C3WP.implicitSurface = none
    ∧ C3WE.isBoundaryPoint C3Ws.cells C3v = true
    ∧ (nextState C3WE C3Ws (committedPoints C3WE C3WP C3Ws)).points C3v = C3Ws.points C3v :=
  ⟨rfl, rfl, rfl, boundary_freeze C3WE C3WP C3Ws _ rfl rfl rfl C3v rfl⟩

theorem C3committed : committedPoints C3E C3P C3s = fun _ _ => (0 : ℝ) := by
  funext v i
  simp [committedPoints, clampedDiff, maxStep, incidentCells, minList, clampVec, rawDiff,
    proposal, C3E, C3P, C3s]

theorem C3surf : surfPass C3S (committedPoints C3E C3P C3s) = fun _ _ => (1 : ℝ) := by
  rw [C3committed]
  funext v i
  simp [surfPass, C3S, dot, Fin.sum_univ_one]

/-- On `C3s` the single (boundary) vertex commits a zero step, but the
implicit-surface correction then moves it from 0 to 1 in one pass. -/
theorem C3run : DriverRun C3E C3P C3s C3out := by
  refine Loop.final 0 _ C3y ?_ (Or.inr (by decide))
  show SurfLoop C3S C3P.implicitSurfaceTol (committedPoints C3E C3P C3s) C3y
  refine SurfLoop.step _ _ ⟨C3v, ?_⟩ ?_
  · have hf : C3S.f (committedPoints C3E C3P C3s C3v) = -1 := by
      rw [congrFun C3committed C3v]
      simp [C3S]
    rw [hf]
    show (0.1 : ℝ) < |(-1 : ℝ)|
    rw [abs_neg, abs_one]
    norm_num
  · refine SurfLoop.done _ ?_
    intro v
    have hf : C3S.f (surfPass C3S (committedPoints C3E C3P C3s) v) = 0 := by
      rw [congrFun C3surf v]
      simp [C3S]
    rw [hf]
    show |(0 : ℝ)| ≤ (0.1 : ℝ)
    simp
    norm_num

/-- Counterexample to C3 as stated: with `implicit_surface` configured
(and still no `boundary_step`), the boundary vertex of `C3s` moves from
0 to 1 during the iteration. -/
theorem boundary_moved_cex :
    DriverRun C3E C3P C3s C3out
    ∧ C3P.boundaryStep = none
    ∧ C3E.isBoundaryPoint C3s.cells C3v = true
    ∧ C3out.2.1.points C3v 0 ≠ C3s.points C3v 0 := by
  refine ⟨C3run, rfl, rfl, ?_⟩
  have h1 : C3out.2.1.points C3v 0 = 1 := by
    show surfPass C3S (committedPoints C3E C3P C3s) C3v 0 = 1
    rw [congrFun (congrFun C3surf C3v) 0]
  rw [h1]
  show (1 : ℝ) ≠ 0
  norm_num

/-- C4 (amended): whenever a driver run is final with the tolerance
condition of line 149 holding on the last committed step and the
tolerance is nonnegative, every vertex's last committed step has
Euclidean length strictly less than `tol`.  (The amendment adds
`0 ≤ tol`: for a negative tolerance the squared comparison
`diff_norm_2 < tol ** 2` can pass while no length is below `tol`, see
the counterexample.) -/
theorem tol_convergence {n d : ℕ} (E : Ext n d) (P : Params n d) (k : ℕ)
    (s : MeshState n d) (out : DriverOut n d) (_hrun : Loop E P k s out)
    (htol : 0 ≤ P.tol)
    (hfin : tolCond P (fun v => dot (out.2.2 v) (out.2.2 v))) :
    ∀ v, enorm (out.2.2 v) < P.tol := by
  intro v
  have hv := hfin v
  rcases htol.lt_or_eq with hpos | hzero
  · rw [enorm]
    exact (Real.sqrt_lt' hpos).mpr hv
  · exfalso
    rw [← hzero] at hv
    norm_num at hv
    exact absurd hv (not_lt.mpr (dot_self_nonneg _))

theorem C4dot_zero (P : Params 1 1) (v : Fin 1) :
    dot (clampedDiff C4E P C4s v) (clampedDiff C4E P C4s v) = 0 := by
  simp [dot, clampedDiff, maxStep, incidentCells, minList, clampVec, rawDiff, proposal,
    C4E, C4s]

/-- Mesh `C4s` with the identity strategy: the first iteration is final
because the tolerance condition holds (zero step, `tol = 1`). -/
theorem C4run : DriverRun C4E C4P C4s C4out := by
  refine Loop.final 0 _ (committedPoints C4E C4P C4s) rfl (Or.inl ?_)
  intro v
  show dot (clampedDiff C4E C4P C4s v) (clampedDiff C4E C4P C4s v) < C4P.tol ^ 2
  rw [C4dot_zero C4P v]
  show (0 : ℝ) < 1 ^ 2
  norm_num

/-- Witness for C4 (amended), on the concrete run `C4run`. -/
theorem tol_convergence_witness :
    DriverRun C4E C4P C4s C4out ∧ 0 ≤ C4P.tol
    ∧ tolCond C4P (fun v => dot (C4out.2.2 v) (C4out.2.2 v))
    ∧ enorm (C4out.2.2 C4v) < C4P.tol := by
  have htol : (0 : ℝ) ≤ C4P.tol := by norm_num [C4P]
  have hfin : tolCond C4P (fun v => dot (C4out.2.2 v) (C4out.2.2 v)) := by
    intro v
    show dot (clampedDiff C4E C4P C4s v) (clampedDiff C4E C4P C4s v) < C4P.tol ^ 2
    rw [C4dot_zero C4P v]
    show (0 : ℝ) < 1 ^ 2
    norm_num
  exact ⟨C4run, htol, hfin, tol_convergence C4E C4P 0 _ C4out C4run htol hfin C4v⟩

/-- The same run with `tol = -1` is also final by the tolerance check. -/
theorem C4runNeg : DriverRun C4E C4Pneg C4s C4outNeg := by
  refine Loop.final 0 _ (committedPoints C4E C4Pneg C4s) rfl (Or.inl ?_)
  intro v
  show dot (clampedDiff C4E C4Pneg C4s v) (clampedDiff C4E C4Pneg C4s v) < C4Pneg.tol ^ 2
  rw [C4dot_zero C4Pneg v]
  show (0 : ℝ) < (-1) ^ 2
  norm_num

/-- Counterexample to C4 as stated: with `tol = -1` the run is declared
final by the tolerance condition (not the iteration cap), yet the last
step's length 0 is not below `tol`. -/
theorem tol_negative_cex :
    DriverRun C4E C4Pneg C4s C4outNeg
    ∧ tolCond C4Pneg (fun v => dot (C4outNeg.2.2 v) (C4outNeg.2.2 v))
    ∧ C4outNeg.1 < C4Pneg.maxNumSteps
    ∧ ¬ enorm (C4outNeg.2.2 C4v) < C4Pneg.tol := by
  refine ⟨C4runNeg, ?_, by decide, ?_⟩
  · intro v
    show dot (clampedDiff C4E C4Pneg C4s v) (clampedDiff C4E C4Pneg C4s v) < C4Pneg.tol ^ 2
    rw [C4dot_zero C4Pneg v]
    show (0 : ℝ) < (-1) ^ 2
    norm_num
  · have he : enorm (C4outNeg.2.2 C4v) = 0 := by
      show enorm (clampedDiff C4E C4Pneg C4s C4v) = 0
      rw [enorm, C4dot_zero C4Pneg C4v, Real.sqrt_zero]
    rw [he]
    show ¬ (0 : ℝ) < -1
    norm_num

/-- C5 (amended): a call dispatched to the relaxation driver returns the
pair of line 175 — the final iteration count and the maximum over
vertices of the Euclidean length of the last committed step — while a
call routed to the scipy-ODT special path returns `None` (the bare
`return` of line 43), not a pair. -/
theorem optimize_return_contract {n d : ℕ} (name : String) (omega? : Option ℝ)
    (out : DriverOut (n + 1) d) :
    (∀ m w, optimizeOutcome name omega? = .runDriver m w →
        optimizeReturn name omega? out = .ok (some (out.1, maxDisplacement out.2.2)))
    ∧ (∀ rem w, optimizeOutcome name omega? = .runNonlinear rem w →
        optimizeReturn name omega? out = .ok none) := by
  constructor
  · intro m w hm
    simp [optimizeReturn, hm, driverReturn]
  · intro rem w hm
    simp [optimizeReturn, hm]

/-- Witness for C5 (amended) at the names "laplace" (driver path) and
"ODT (bfgs)" (special path), with the concrete driver output `C2out`. -/
theorem optimize_return_contract_witness :
    optimizeReturn "laplace" none C2out = Except.ok (some (C2out.1, maxDisplacement C2out.2.2))
    ∧ optimizeReturn "ODT (bfgs)" none C2out = Except.ok none := by
  have hd1 : dispatch "laplace" = .driver .laplace := by decide
  have hd2 : dispatch "ODT (bfgs)" = .special "bfgs".data := by decide
  have h1 : optimizeOutcome "laplace" none = Outcome.runDriver .laplace 1.0 := by
    simp [optimizeOutcome, hd1]
  have h2 : optimizeOutcome "ODT (bfgs)" none = Outcome.runNonlinear "bfgs".data none := by
    simp [optimizeOutcome, hd2]
  exact ⟨(optimize_return_contract "laplace" none C2out).1 _ _ h1,
    (optimize_return_contract "ODT (bfgs)" none C2out).2 _ _ h2⟩

/-- Counterexample to C5 as stated: for the recognized special-path name
"odt-bfgs" the call returns `None` (line 43), not the claimed
`(iterations, residual)` pair. -/
theorem odt_return_none_cex :
    optimizeReturn "odt-bfgs" none C2out = Except.ok none
    ∧ optimizeReturn "odt-bfgs" none C2out ≠
        Except.ok (some (C2out.1, maxDisplacement C2out.2.2)) := by
  have hd : dispatch "odt-bfgs" = .special "bfgs".data := by decide
  have h : optimizeReturn "odt-bfgs" none C2out = Except.ok none := by
    simp [optimizeReturn, optimizeOutcome, hd]
  exact ⟨h, by rw [h]; simp⟩

/-- C7: a name whose normalized form begins with "odt-" and whose
remainder after that prefix is not "fixed-point" is routed to the
external nonlinear optimizer with that remainder as method selector
(lines 37-43), and every name found in the registry — "odt-fixed-point"
included — is dispatched to the relaxation driver with its strategy
(line 45). -/
theorem odt_routing (name : String) :
    ((normalizeName name).take 4 = "odt-".data →
      (normalizeName name).drop 4 ≠ "fixed-point".data →
      dispatch name = .special ((normalizeName name).drop 4))
    ∧ ∀ m, lookupMethod (normalizeName name) = some m → dispatch name = .driver m := by
  constructor
  · intro h4 hfp
    have h3 : (normalizeName name).take 3 = "odt".data := by
      have ht : ((normalizeName name).take 4).take 3 = (normalizeName name).take 3 := by
        rw [List.take_take]
        norm_num
      rw [← ht, h4]
      decide
    unfold dispatch dispatchNorm
    rw [if_pos ⟨h3, hfp⟩]
  · intro m hm
    have hcond : ¬((normalizeName name).take 3 = "odt".data
        ∧ (normalizeName name).drop 4 ≠ "fixed-point".data) := by
      rintro ⟨h3, hfp⟩
      obtain ⟨p, hfind, -⟩ := Option.map_eq_some'.mp hm
      have hmem := List.mem_of_find?_eq_some hfind
      have hkey : p.1 = normalizeName name := by
        have := List.find?_some hfind
        simpa using this
      rw [← hkey] at h3 hfp
      simp only [methods, List.mem_cons, List.not_mem_nil, or_false] at hmem
      rcases hmem with h | h | h | h | h | h | h | h | h
      all_goals rw [h] at h3 hfp
      all_goals revert h3 hfp
      all_goals decide
    unfold dispatch dispatchNorm
    rw [if_neg hcond, hm]

/-- Witness for C7: "ODT (bfgs)" normalizes to "odt-bfgs" and is routed
to the nonlinear optimizer with selector "bfgs"; "odt-fixed-point" is in
the registry and is dispatched to the driver. -/
theorem odt_routing_witness :
    (normalizeName "ODT (bfgs)").take 4 = "odt-".data
    ∧ (normalizeName "ODT (bfgs)").drop 4 ≠ "fixed-point".data
    ∧ dispatch "ODT (bfgs)" = .special ((normalizeName "ODT (bfgs)").drop 4)
    ∧ lookupMethod (normalizeName "odt-fixed-point") = some .odtFixedPoint
    ∧ dispatch "odt-fixed-point" = .driver .odtFixedPoint :=
  ⟨by decide, by decide, (odt_routing "ODT (bfgs)").1 (by decide) (by decide),
    by decide, (odt_routing "odt-fixed-point").2 .odtFixedPoint (by decide)⟩

/-- C8: dispatch is a function of the normalized name alone, so any two
names with the same normalized form select the same strategy or
special-case path; in particular "ODT  (block diagonal)" and
"odt-block-diagonal" normalize identically and dispatch identically. -/
theorem normalization_equiv :
    (∀ s t : String, normalizeName s = normalizeName t → dispatch s = dispatch t)
    ∧ normalizeName "ODT  (block diagonal)" = normalizeName "odt-block-diagonal"
    ∧ dispatch "ODT  (block diagonal)" = dispatch "odt-block-diagonal" := by
  refine ⟨?_, by decide, by decide⟩
  intro s t h
  unfold dispatch
  rw [h]

/-- Witness for C8 at the claim's concrete pair of names. -/
theorem normalization_equiv_witness :
    dispatch "ODT  (block diagonal)" = dispatch "odt-block-diagonal" :=
  normalization_equiv.1 _ _ (by decide)

/-- C9: on the scipy-ODT special path, an `omega` option different from
1.0 fails the assertion of line 40 before the optimizer is invoked
(the outcome is the usage error, not a delegation), and an `omega` equal
to 1.0 is popped, so the optimizer is invoked without it. -/
theorem invalid_omega_gate (name : String) (rem : List Char) (w : ℝ)
    (h : dispatch name = .special rem) :
    (w ≠ 1.0 → optimizeOutcome name (some w) = .errorInvalidOmega)
    ∧ optimizeOutcome name (some 1.0) = .runNonlinear rem none := by
  constructor
  · intro hw
    simp [optimizeOutcome, h, hw]
  · simp [optimizeOutcome, h]

/-- Witness for C9 at "odt-bfgs" with `omega = 2` and `omega = 1.0`. -/
theorem invalid_omega_gate_witness :
    optimizeOutcome "odt-bfgs" (some 2) = .errorInvalidOmega
    ∧ optimizeOutcome "odt-bfgs" (some 1.0) = .runNonlinear "bfgs".data none := by
  have hd : dispatch "odt-bfgs" = .special "bfgs".data := by decide
  exact ⟨(invalid_omega_gate "odt-bfgs" _ 2 hd).1 (by norm_num),
    (invalid_omega_gate "odt-bfgs" _ 2 hd).2⟩

/-- C10: the registry contains the misspelled key "cvt-diaognal"
(mapped to the Lloyd strategy, like "lloyd") and no key "cvt-diagonal";
so "cvt-diaognal" runs the Lloyd strategy through the driver, while
"cvt-diagonal" and "CVT (diagonal)" hit the `KeyError` of line 45 —
dispatch fails before `_optimize` is ever entered, so no mesh mutation
happens. -/
theorem registry_misspelling :
    lookupMethod "cvt-diaognal".data = some .lloyd
    ∧ lookupMethod "lloyd".data = some .lloyd
    ∧ lookupMethod "cvt-diagonal".data = none
    ∧ optimizeOutcome "cvt-diaognal" none = .runDriver .lloyd 1.0
    ∧ optimizeOutcome "cvt-diagonal" none = .errorUnknownMethod
    ∧ optimizeOutcome "CVT (diagonal)" none = .errorUnknownMethod := by
  have h1 : dispatch "cvt-diaognal" = .driver .lloyd := by decide
  have h2 : dispatch "cvt-diagonal" = .unknown := by decide
  have h3 : dispatch "CVT (diagonal)" = .unknown := by decide
  refine ⟨by decide, by decide, by decide, ?_, ?_, ?_⟩
  · simp [optimizeOutcome, h1]
  · simp [optimizeOutcome, h2]
  · simp [optimizeOutcome, h3]

theorem surfLoop_within {n d : ℕ} {S : Surface d} {tol : ℝ}
    {x y : Fin n → Fin d → ℝ} (h : SurfLoop S tol x y) : WithinTol S tol y := by
  induction h with
  | done x hx => exact hx
  | step x y hv hl ih => exact ih

theorem surfLoop_inv {n d : ℕ} {S : Surface d} {tol : ℝ}
    {x y : Fin n → Fin d → ℝ} (h : SurfLoop S tol x y) :
    (WithinTol S tol x ∧ y = x)
    ∨ (HasViolation S tol x ∧ SurfLoop S tol (surfPass S x) y) := by
  cases h with
  | done x hx => exact Or.inl ⟨hx, rfl⟩
  | step x y hv hl => exact Or.inr ⟨hv, hl⟩

/-- C6 (amended): with an implicit surface configured, after committing,
the correction loop of lines 131-140 terminates only with every point's
field value within the tolerance; whenever ANY point's absolute field
value exceeds the tolerance, one pass updates EVERY point by subtracting
`grad * (fval / grad_dot_grad)` (recomputing `fval` afterwards) — there
is no per-point mask, so points already within tolerance are also moved
whenever their field value is nonzero (see the counterexample); and when
all points start within tolerance the loop leaves them unchanged. -/
theorem implicit_correction {n d : ℕ} (E : Ext n d) (P : Params n d) (s : MeshState n d)
    (S : Surface d) (y : Fin n → Fin d → ℝ) (hS : P.implicitSurface = some S)
    (h : NewPointsRel E P s y) :
    WithinTol S P.implicitSurfaceTol y
    ∧ (HasViolation S P.implicitSurfaceTol (committedPoints E P s) →
        SurfLoop S P.implicitSurfaceTol (surfPass S (committedPoints E P s)) y)
    ∧ (WithinTol S P.implicitSurfaceTol (committedPoints E P s) →
        y = committedPoints E P s) := by
  have hl : SurfLoop S P.implicitSurfaceTol (committedPoints E P s) y := by
    simpa [NewPointsRel, hS] using h
  refine ⟨surfLoop_within hl, ?_, ?_⟩
  · intro hv
    rcases surfLoop_inv hl with ⟨hw, -⟩ | ⟨-, hrest⟩
    · obtain ⟨v, hv'⟩ := hv
      exact absurd (hw v) (not_le.mpr hv')
    · exact hrest
  · intro hw
    rcases surfLoop_inv hl with ⟨-, hyx⟩ | ⟨⟨v, hv'⟩, -⟩
    · exact hyx
    · exact absurd (hw v) (not_le.mpr hv')

theorem C6committed : committedPoints C6E C6P C6s = C6s.points := by
  funext v i
  simp [committedPoints, clampedDiff, maxStep, incidentCells, minList, clampVec, rawDiff,
    proposal, C6E, C6P]

theorem C6surf : surfPass C6S (committedPoints C6E C6P C6s) = fun _ _ => (0 : ℝ) := by
  rw [C6committed]
  funext v i
  rw [show i = 0 from Subsingleton.elim i 0]
  simp [surfPass, C6S, dot, Fin.sum_univ_one]

/-- Vertex 1 of `C6s` (at 2) violates the tolerance 1 after the commit. -/
theorem C6violation :
    C6P.implicitSurfaceTol < |C6S.f (committedPoints C6E C6P C6s C6vB)| := by
  have hf : C6S.f (committedPoints C6E C6P C6s C6vB) = 2 := by
    rw [congrFun C6committed C6vB]
    simp [C6S, C6s, C6vB]
  rw [hf]
  show (1 : ℝ) < |(2 : ℝ)|
  rw [abs_of_pos (by norm_num : (0 : ℝ) < 2)]
  norm_num

/-- After one correction pass every point of `C6s` is at 0, within the
tolerance. -/
theorem C6within : WithinTol C6S C6P.implicitSurfaceTol C6y := by
  intro v
  have hf : C6S.f (C6y v) = 0 := by
    show C6S.f (surfPass C6S (committedPoints C6E C6P C6s) v) = 0
    rw [congrFun C6surf v]
    simp [C6S]
  rw [hf]
  show |(0 : ℝ)| ≤ (1 : ℝ)
  simp

theorem C6surfloop :
    SurfLoop C6S C6P.implicitSurfaceTol (committedPoints C6E C6P C6s) C6y :=
  SurfLoop.step _ _ ⟨C6vB, C6violation⟩ (SurfLoop.done _ C6within)

/-- A complete driver run on `C6s`: the zero committed step is followed
by one implicit-surface correction pass moving both vertices to 0. -/
theorem C6run : DriverRun C6E C6P C6s C6out :=
  Loop.final 0 _ C6y C6surfloop (Or.inr (by decide))

/-- Witness for C6 (amended), on the concrete run: the loop's result is
within tolerance everywhere, and since vertex 1 violated the tolerance,
the loop's remainder starts from one full `surfPass` over all points. -/
theorem implicit_correction_witness :
    C6P.implicitSurface = some C6S
    ∧ WithinTol C6S C6P.implicitSurfaceTol C6y
    ∧ SurfLoop C6S C6P.implicitSurfaceTol (surfPass C6S (committedPoints C6E C6P C6s)) C6y := by
  obtain ⟨h1, h2, -⟩ := implicit_correction C6E C6P C6s C6S C6y rfl C6surfloop
  exact ⟨rfl, h1, h2 ⟨C6vB, C6violation⟩⟩

/-- Counterexample to C6 as stated: vertex 0 of `C6s` is within the
tolerance after the commit (|f| = 1/2 ≤ 1), yet the correction pass
moves it (from 1/2 to 0) — the pass updates every point, not exactly
the offending ones. -/
theorem within_tol_moved_cex :
    DriverRun C6E C6P C6s C6out
    ∧ |C6S.f (committedPoints C6E C6P C6s C6vA)| ≤ C6P.implicitSurfaceTol
    ∧ surfPass C6S (committedPoints C6E C6P C6s) C6vA 0 ≠ committedPoints C6E C6P C6s C6vA 0 := by
  refine ⟨C6run, ?_, ?_⟩
  · have hf : C6S.f (committedPoints C6E C6P C6s C6vA) = 1 / 2 := by
      rw [congrFun C6committed C6vA]
      simp [C6S, C6s, C6vA]
    rw [hf]
    show |(1 / 2 : ℝ)| ≤ (1 : ℝ)
    rw [abs_of_pos (by norm_num : (0 : ℝ) < 1 / 2)]
    norm_num
  · have h1 : surfPass C6S (committedPoints C6E C6P C6s) C6vA 0 = 0 := by
      rw [congrFun (congrFun C6surf C6vA) 0]
    have h2 : committedPoints C6E C6P C6s C6vA 0 = 1 / 2 := by
      rw [congrFun (congrFun C6committed C6vA) 0]
      simp [C6s, C6vA]
    rw [h1, h2]
    norm_num

end Optimesh
